import Mathlib

/-!
Verification development for the tandem DID-PLC client.

We shallowly embed the core logic of the repository:
* `src/actions/inputs.rs` — hostname and handle validation,
* `src/resolve.rs` — the bidirectional handle/DID resolution fixpoint,
* `src/plc.rs` — audit-log chain-tip selection,
* `src/crypto.rs` — key encoding (multibase/base58btc) and operation signing,
* the `json_patch` directives used by `src/actions/append_handle.rs`.

Network I/O is modelled by explicit oracles (`ResolveEnv`), the cryptographic
curve primitives (ECDSA over P-256 / secp256k1, provided by external crates)
by explicit function parameters, and Rust `HashSet`s by duplicate-free lists
with deterministic insertion order.

Rust strings are modelled as Lean `String`s, processed through their char
lists.  All characters accepted by the validators are ASCII, where Rust's
byte-level operations and Lean's char-level operations coincide; non-ASCII
characters are rejected by both views (every byte of a multi-byte UTF-8
character is ≥ 0x80, and no non-ASCII char passes `is_valid_char`).
-/

namespace Tandem

/-! ## Char-list string helpers (kernel-computable) -/

/-- UTF-8 byte length of a char list (Rust `str::len`). -/
def utf8Len (cs : List Char) : Nat :=
  (cs.map Char.utf8Size).sum

/-- Rust `str::split(sep)` over chars: `"a..b"` ↦ `["a", "", "b"]`,
`""` ↦ `[""]`. -/
def splitOnChar (sep : Char) : List Char → List (List Char)
  | [] => [[]]
  | c :: rest =>
    let r := splitOnChar sep rest
    if c == sep then [] :: r
    else
      match r with
      | [] => [[c]]
      | g :: gs => (c :: g) :: gs

/-- Rust `str::starts_with(pat)` over chars. -/
def charsStartWith (cs pat : List Char) : Bool :=
  cs.take pat.length == pat

/-- Rust `str::ends_with(pat)` over chars. -/
def charsEndWith (cs pat : List Char) : Bool :=
  cs.drop (cs.length - pat.length) == pat

/-! ## Hostname and handle validation (src/actions/inputs.rs) -/

/-- Model of `is_valid_char` from `inputs.rs`: ASCII lower, upper, digit, `-` or `.`. -/
def is_valid_char (c : Char) : Bool :=
  c.isLower || c.isUpper || c.isDigit || c == '-' || c == '.'

/-- Body of `is_valid_hostname` from `inputs.rs`, over the char list.
Lengths are byte lengths (`str::len` in Rust), hence `utf8Len`. -/
def hostnameOkChars (cs : List Char) : Bool :=
  !(charsEndWith cs (".localhost").data
    || charsEndWith cs (".internal").data
    || charsEndWith cs (".arpa").data
    || charsEndWith cs (".local").data
    || cs.any (fun c => !(is_valid_char c))
    || (splitOnChar '.' cs).any (fun label =>
          label.isEmpty || decide (63 < utf8Len label)
            || charsStartWith label [Char.ofNat 45] || charsEndWith label [Char.ofNat 45])
    || cs.isEmpty
    || decide (253 < utf8Len cs))

/-- Model of `is_valid_hostname` from `inputs.rs`. -/
def is_valid_hostname (hostname : String) : Bool :=
  hostnameOkChars hostname.data

/-- Model of `is_valid_handle` from `inputs.rs`: strip a leading `at://` or `@`,
lower-case, then require a valid hostname containing a dot.  Rust
`to_lowercase` and `Char.toLower` agree on every string either function can
accept (all-ASCII); on all other strings both return `None`. -/
def is_valid_handle (handle : String) : Option String :=
  let cs := handle.data
  let trimmed :=
    if charsStartWith cs ("at://").data then cs.drop 5
    else if charsStartWith cs ("@").data then cs.drop 1
    else cs
  let trimmed := trimmed.map Char.toLower
  if hostnameOkChars trimmed && trimmed.any (fun c => c == '.') then
    some (String.mk trimmed)
  else
    none


/-! ## Resolution (src/resolve.rs)

Network calls are oracles in a `ResolveEnv`; Rust `HashSet`s of strings are
duplicate-free lists with insertion order (all the post-conditions below
depend only on cardinality and membership).  A `None` oracle answer models a
failed network call. -/

inductive ResolveErr where
  | transportError
  | invalidResponse
  | ambiguousHandle
  | noRecords
  | depthExceeded
  | multipleDids
  | noHandles
  | multiplePds
  | noDids
  | noPds
  deriving DecidableEq, Repr

/-- Set-like insert on a duplicate-free list (`HashSet::insert`). -/
def slInsert (l : List String) (x : String) : List String :=
  if x ∈ l then l else l ++ [x]

/-- Set-like extend (`HashSet::extend`). -/
def slExtend (l : List String) (xs : List String) : List String :=
  xs.foldl slInsert l

/-- The distinct `did=`-tagged values of a TXT record set
(`resolve_handle_dns` builds this `HashSet`). -/
def dnsDids (records : List String) : List String :=
  (records.filterMap (fun r =>
    if charsStartWith r.data ("did=").data then some (String.mk (r.data.drop 4))
    else none)).dedup

/-- Core of `resolve_handle_dns` from `resolve.rs`, applied to the TXT
records of `_atproto.<handle>`: more than one distinct DID is an
`AmbiguousHandle`-style error, none is a no-records error. -/
def resolve_handle_dns (records : List String) : Except ResolveErr String :=
  let dids := dnsDids records
  if dids.length > 1 then .error .ambiguousHandle
  else
    match dids.head? with
    | some did => .ok did
    | none => .error .noRecords

/-- Oracles for the three network sources used by `resolve_handle`. -/
structure ResolveEnv where
  plcQuery : String → Option (List String × List String)
  httpBody : String → Option String
  dnsTxt : String → Option (List String)

/-- `resolve_handle_http` from `resolve.rs`: fetch
`https://<handle>/.well-known/atproto-did` and require the body to start
with `did:`. -/
def resolveHandleHttp (env : ResolveEnv) (handle : String) : Except ResolveErr String :=
  match env.httpBody handle with
  | none => .error .transportError
  | some body =>
    if charsStartWith body.data ("did:").data then .ok body
    else .error .invalidResponse

/-- DNS resolution of a handle inside `resolve_handle`: look up the TXT
records and run `resolve_handle_dns`. -/
def resolveHandleDns (env : ResolveEnv) (handle : String) : Except ResolveErr String :=
  match env.dnsTxt handle with
  | none => .error .transportError
  | some records => resolve_handle_dns records

/-- The seven `HashSet`s of `resolve_handle`. -/
structure RState where
  resolvedDids : List String
  unresolvedDids : List String
  resolvedHandles : List String
  unresolvedHandles : List String
  foundPds : List String
  foundHandles : List String
  foundDids : List String
  deriving DecidableEq, Repr

/-- Seeding in `resolve_handle`: a `did:`-prefixed subject goes into the
unresolved-DID frontier, anything else into the unresolved-handle frontier. -/
def initState (subject : String) : RState :=
  if charsStartWith subject.data ("did:").data then
    ⟨[], [subject], [], [], [], [], []⟩
  else
    ⟨[], [], [], [subject], [], [], []⟩

/-- `unresolved.difference(&resolved).next()`. -/
def pickNext (unres res : List String) : Option String :=
  (unres.filter (fun x => decide (x ∉ res))).head?

/-- The loop break condition: both frontiers fully resolved. -/
def frontierDone (s : RState) : Bool :=
  (pickNext s.unresolvedDids s.resolvedDids).isNone
    && (pickNext s.unresolvedHandles s.resolvedHandles).isNone

/-- Record the outcome of the directory query of one DID (the
`if let Ok((pds, handles)) = query_res` block): on success record PDS
endpoints and handles and extend the handle frontier; a failed query
yields no new facts. -/
def recordPlcResult (s : RState) : Option (List String × List String) → RState
  | none => s
  | some (pds, handles) =>
    { s with
        foundPds := slExtend s.foundPds pds
        foundHandles := slExtend s.foundHandles handles
        unresolvedHandles := slExtend s.unresolvedHandles handles }

/-- DID branch of one loop iteration: mark resolved, then record the
directory query outcome. -/
def processDid (env : ResolveEnv) (s : RState) : Option String → RState
  | none => s
  | some did =>
    recordPlcResult { s with resolvedDids := slInsert s.resolvedDids did }
      (env.plcQuery did)

/-- Record one per-source outcome of handle resolution (each
`if let Ok(resolved_did) = ..` block): a discovered DID goes into both the
found-DID set and the DID frontier; a source error (transport failure,
invalid body, DNS ambiguity, no records) is dropped. -/
def recordFoundDid (s : RState) : Except ResolveErr String → RState
  | .ok did =>
    { s with
        unresolvedDids := slInsert s.unresolvedDids did
        foundDids := slInsert s.foundDids did }
  | .error _ => s

/-- Handle branch of one loop iteration: mark resolved, then record the
HTTPS outcome and the DNS outcome in turn. -/
def processHandle (env : ResolveEnv) (s : RState) : Option String → RState
  | none => s
  | some handle =>
    recordFoundDid
      (recordFoundDid { s with resolvedHandles := slInsert s.resolvedHandles handle }
        (resolveHandleHttp env handle))
      (resolveHandleDns env handle)

/-- One iteration body of the `resolve_handle` loop.  Both picks are taken
from the state at the start of the iteration, exactly as in the source
(where both `next` values are computed before any processing). -/
def stepState (env : ResolveEnv) (s : RState) : RState :=
  processHandle env
    (processDid env s (pickNext s.unresolvedDids s.resolvedDids))
    (pickNext s.unresolvedHandles s.resolvedHandles)

/-- The bounded loop.  Fuel `k` corresponds to Rust iteration `11 - k`; the
iteration counter is incremented and checked before the break test, so fuel
0 is `ResolutionDepthExceeded` even on a settled frontier. -/
def resolveLoop (env : ResolveEnv) : Nat → RState → Except ResolveErr RState
  | 0, _ => .error .depthExceeded
  | fuel + 1, s =>
    if frontierDone s then .ok s
    else resolveLoop env fuel (stepState env s)

/-- Seed and run the loop (10 iterations), returning the final fact sets. -/
def resolveFacts (env : ResolveEnv) (subject : String) : Except ResolveErr RState :=
  resolveLoop env 10 (initState subject)

/-- Result record of `resolve_handle`. -/
structure ResolvedHandle where
  did : String
  pds : String
  handles : List String
  deriving DecidableEq, Repr

/-- `resolve_handle` from `resolve.rs`: run the fixpoint, then apply the
post-condition checks in source order. -/
def resolve_handle (env : ResolveEnv) (subject : String) :
    Except ResolveErr ResolvedHandle :=
  match resolveFacts env subject with
  | .error e => .error e
  | .ok s =>
    if s.foundDids.length > 1 then .error .multipleDids
    else if s.foundHandles.isEmpty then .error .noHandles
    else if s.foundPds.length > 1 then .error .multiplePds
    else
      match s.foundDids.head?, s.foundPds.head? with
      | some did, some pds => .ok ⟨did, pds, s.foundHandles⟩
      | none, _ => .error .noDids
      | some _, none => .error .noPds

/-! ## JSON values (serde_json, default `BTreeMap` objects) -/

/-- JSON tree.  Numbers are modelled as integers; no claim depends on
non-integer numerics. -/
inductive Json where
  | null
  | bool (b : Bool)
  | num (n : Int)
  | str (s : String)
  | arr (items : List Json)
  | obj (fields : List (String × Json))

/-- Map lookup (`serde_json::Map::get`). -/
def lookupField : List (String × Json) → String → Option Json
  | [], _ => none
  | (k, v) :: rest, key => if k = key then some v else lookupField rest key

/-- Map insert (`serde_json::Map::insert`): replace the value in place if
the key is present, else add the binding.  The source map is a `BTreeMap`
(unique keys, key-sorted iteration); we keep keys unique and model the map
through lookup, so iteration order — which no modelled observation
inspects — is insertion order here. -/
def insertField : List (String × Json) → String → Json → List (String × Json)
  | [], key, v => [(key, v)]
  | (k, w) :: rest, key, v =>
    if k = key then (k, v) :: rest
    else (k, w) :: insertField rest key v

/-- Map remove (`serde_json::Map::remove`). -/
def removeField : List (String × Json) → String → List (String × Json)
  | [], _ => []
  | (k, w) :: rest, key => if k = key then rest else (k, w) :: removeField rest key

/-- Field projection of a JSON value. -/
def getField (j : Json) (key : String) : Option Json :=
  match j with
  | .obj fields => lookupField fields key
  | _ => none

/-- Number of fields of a JSON object (0 for non-objects). -/
def numFields (j : Json) : Nat :=
  match j with
  | .obj fields => fields.length
  | _ => 0

/-! ## JSON Patch (the `json_patch` crate as used by the actions) -/

inductive PatchError where
  | patchApplicationError
  deriving DecidableEq, Repr

/-- The directive shapes used by this system (`add`, `remove`, `replace`);
paths are pre-split JSON-Pointer token lists (the source builds them from
pointer literals such as the also-known-as append pointer and `/prev`). -/
inductive PatchDirective where
  | add (path : List String) (value : Json)
  | remove (path : List String)
  | replace (path : List String) (value : Json)

/-- Array index token: digits only (`-` is handled separately by `add`). -/
def parseIndex (cs : List Char) : Option Nat :=
  if cs ≠ [] ∧ cs.all Char.isDigit then
    some (cs.foldl (fun a c => a * 10 + (c.toNat - 48)) 0)
  else none

/-- RFC 6902 `add` at a pointer: objects insert-or-replace, arrays insert
at an index bounded by the length or append at `-`; a missing intermediate
path is an error. -/
def addAt (v : Json) : List String → Json → Except PatchError Json
  | [], _ => .ok v
  | [tok], .obj fields => .ok (.obj (insertField fields tok v))
  | [tok], .arr items =>
    if tok = "-" then .ok (.arr (items ++ [v]))
    else
      match parseIndex tok.data with
      | some i =>
        if i ≤ items.length then .ok (.arr (items.insertIdx i v))
        else .error .patchApplicationError
      | none => .error .patchApplicationError
  | tok :: rest, .obj fields =>
    (match lookupField fields tok with
     | some child => (addAt v rest child).map (fun c => Json.obj (insertField fields tok c))
     | none => .error .patchApplicationError)
  | tok :: rest, .arr items =>
    (match parseIndex tok.data with
     | some i =>
       match items.get? i with
       | some child => (addAt v rest child).map (fun c => Json.arr (items.set i c))
       | none => .error .patchApplicationError
     | none => .error .patchApplicationError)
  | _ :: _, _ => .error .patchApplicationError

/-- RFC 6902 `remove` at a pointer: the target location must exist. -/
def removeAt : List String → Json → Except PatchError Json
  | [], _ => .error .patchApplicationError
  | [tok], .obj fields =>
    (match lookupField fields tok with
     | some _ => .ok (.obj (removeField fields tok))
     | none => .error .patchApplicationError)
  | [tok], .arr items =>
    (match parseIndex tok.data with
     | some i =>
       if i < items.length then .ok (.arr (items.eraseIdx i))
       else .error .patchApplicationError
     | none => .error .patchApplicationError)
  | tok :: rest, .obj fields =>
    (match lookupField fields tok with
     | some child => (removeAt rest child).map (fun c => Json.obj (insertField fields tok c))
     | none => .error .patchApplicationError)
  | tok :: rest, .arr items =>
    (match parseIndex tok.data with
     | some i =>
       match items.get? i with
       | some child => (removeAt rest child).map (fun c => Json.arr (items.set i c))
       | none => .error .patchApplicationError
     | none => .error .patchApplicationError)
  | _ :: _, _ => .error .patchApplicationError

/-- RFC 6902 `replace` at a pointer: the target location must exist. -/
def replaceAt (v : Json) : List String → Json → Except PatchError Json
  | [], _ => .ok v
  | [tok], .obj fields =>
    (match lookupField fields tok with
     | some _ => .ok (.obj (insertField fields tok v))
     | none => .error .patchApplicationError)
  | [tok], .arr items =>
    (match parseIndex tok.data with
     | some i =>
       if i < items.length then .ok (.arr (items.set i v))
       else .error .patchApplicationError
     | none => .error .patchApplicationError)
  | tok :: rest, .obj fields =>
    (match lookupField fields tok with
     | some child => (replaceAt v rest child).map (fun c => Json.obj (insertField fields tok c))
     | none => .error .patchApplicationError)
  | tok :: rest, .arr items =>
    (match parseIndex tok.data with
     | some i =>
       match items.get? i with
       | some child => (replaceAt v rest child).map (fun c => Json.arr (items.set i c))
       | none => .error .patchApplicationError
     | none => .error .patchApplicationError)
  | _ :: _, _ => .error .patchApplicationError

/-- One patch directive. -/
def applyDirective (j : Json) : PatchDirective → Except PatchError Json
  | .add path v => addAt v path j
  | .remove path => removeAt path j
  | .replace path v => replaceAt v path j

/-- `json_patch::patch`: directives strictly in order, each building on
the previous result; the first error aborts. -/
def applyPatch : Json → List PatchDirective → Except PatchError Json
  | j, [] => .ok j
  | j, d :: rest =>
    match applyDirective j d with
    | .ok j2 => applyPatch j2 rest
    | .error e => .error e

/-- The patch built by `ActionAppendHandle::run`. -/
def appendHandleDirectives (newHandle lastCommit : String) : List PatchDirective :=
  [ .add ["alsoKnownAs", "-"] (.str ("at://" ++ newHandle)),
    .remove ["sig"],
    .replace ["prev"] (.str lastCommit) ]

/-! ## Audit log and chain tip (src/plc.rs) -/

inductive PlcErr where
  | noOperationsFound
  deriving DecidableEq, Repr

/-- An entry of `GET /{did}/log/audit`; `createdAt` is the timestamp as a
totally ordered integer. -/
structure AuditEntry where
  operation : Json
  cid : String
  createdAt : Int

/-- The `sort_by_key(|entry| entry.created_at)` order. -/
def auditLe (a b : AuditEntry) : Prop :=
  a.createdAt ≤ b.createdAt

instance : DecidableRel auditLe :=
  fun a b => Int.decLe a.createdAt b.createdAt

/-- Rust `sort_by_key` is a stable sort; insertion sort is stable, and any
two stable sorts of the same key order agree on every input list. -/
def auditSort (log : List AuditEntry) : List AuditEntry :=
  List.insertionSort auditLe log

/-- Model of `did_plc_last_operation` from `plc.rs`: stable-sort the audit
log by `createdAt` ascending and take the last entry; an empty log is
`NoOperationsFound`. -/
def did_plc_last_operation (log : List AuditEntry) : Except PlcErr (String × Json) :=
  match (auditSort log).getLast? with
  | some entry => .ok (entry.cid, entry.operation)
  | none => .error .noOperationsFound

/-! ## Key codec (src/crypto.rs)

The elliptic-curve arithmetic lives in the external `p256`/`k256` crates;
it enters the model as explicit `CurveOps` parameters (public-key
derivation, raw ECDSA sign, verify).  Byte strings are `List Nat` with
values < 256. -/

inductive CryptoErr where
  | unsupportedCurve
  | keyDecodingError
  | signatureError
  | notAnObject
  deriving DecidableEq, Repr

/-- Portable key form: the JWK keeps the curve name and the secret key
material. -/
structure JwkEcKey where
  crv : String
  d : List Nat

/-- External curve primitives: compressed SEC1 public point of a secret,
raw (r ‖ s) ECDSA signature, and verification. -/
structure CurveOps where
  pubOf : List Nat → List Nat
  ecSign : List Nat → List Nat → List Nat
  ecVerify : List Nat → List Nat → List Nat → Bool

/-- The two curves the codec supports. -/
structure EcPrimitives where
  p256 : CurveOps
  k256 : CurveOps

/-- Base64url alphabet (the `URL_SAFE_NO_PAD` engine). -/
def b64urlAlphabet : List Char :=
  ("ABCDEFGHIJKLMNOPQRSTUVWXYZabcdefghijklmnopqrstuvwxyz0123456789-_").data

def b64urlChar (n : Nat) : Char :=
  b64urlAlphabet.getD n (Char.ofNat 65)

/-- Base64url without padding over bytes. -/
def base64urlNoPad : List Nat → List Char
  | [] => []
  | [a] => [b64urlChar (a / 4), b64urlChar (a % 4 * 16)]
  | [a, b] => [b64urlChar (a / 4), b64urlChar (a % 4 * 16 + b / 16), b64urlChar (b % 16 * 4)]
  | a :: b :: c :: rest =>
    b64urlChar (a / 4) :: b64urlChar (a % 4 * 16 + b / 16)
      :: b64urlChar (b % 16 * 4 + c / 64) :: b64urlChar (c % 64) :: base64urlNoPad rest

/-- Base58btc alphabet. -/
def b58Alphabet : List Char :=
  ("123456789ABCDEFGHJKLMNPQRSTUVWXYZabcdefghijkmnopqrstuvwxyz").data

def b58Char (n : Nat) : Char :=
  b58Alphabet.getD n (Char.ofNat 49)

def b58Val (c : Char) : Option Nat :=
  b58Alphabet.findIdx? (fun x => x == c)

/-- Big-endian byte-list value. -/
def bytesToNat (bs : List Nat) : Nat :=
  bs.foldl (fun a b => a * 256 + b) 0

/-- Big-endian base58-digit value. -/
def digitsToNat (ds : List Nat) : Nat :=
  ds.foldl (fun a d => a * 58 + d) 0

/-- Little-endian base-`b` digits of `n`, with explicit fuel (any fuel
≥ `n` computes the digits; the fuel keeps the recursion structural so that
the kernel can evaluate it). -/
def natToDigitsRev (b : Nat) : Nat → Nat → List Nat
  | 0, _ => []
  | fuel + 1, n => if n = 0 then [] else n % b :: natToDigitsRev b fuel (n / b)

/-- Little-endian base58 digits of a natural number. -/
def natTo58Rev (n : Nat) : List Nat :=
  natToDigitsRev 58 n n

/-- Little-endian base256 digits of a natural number. -/
def natTo256Rev (n : Nat) : List Nat :=
  natToDigitsRev 256 n n

/-- Base58btc encoding: one `1` per leading zero byte, then the remaining
value in base58, most significant digit first. -/
def base58Encode (bs : List Nat) : List Char :=
  List.replicate ((bs.takeWhile (fun b => b == 0)).length) '1'
    ++ ((natTo58Rev (bytesToNat bs)).reverse.map b58Char)

/-- Base58btc decoding (inverse of `base58Encode` on canonical input). -/
def base58Decode (cs : List Char) : Option (List Nat) :=
  match (cs.drop ((cs.takeWhile (fun c => c == '1')).length)).mapM b58Val with
  | some ds =>
    some (List.replicate ((cs.takeWhile (fun c => c == '1')).length) 0
      ++ (natTo256Rev (digitsToNat ds)).reverse)
  | none => none

/-- `multibase::encode(Base58Btc, _)`: `z` then base58btc. -/
def multibaseB58btc (bs : List Nat) : String :=
  String.mk ('z' :: base58Encode bs)

/-- `multibase::decode` restricted to the `z` (base58btc) tag — the only
one this system ever produces. -/
def multibaseDecode (s : String) : Option (List Nat) :=
  match s.data with
  | [] => none
  | c :: rest => if c = 'z' then base58Decode rest else none

/-- Shared tail of `p256::gen_key` / `p256::jwk_to_did_key`: prepend the
multicodec prefix 0x80 0x24 to the compressed point and multibase-encode. -/
def p256DidKeyFromPoint (point : List Nat) : String :=
  multibaseB58btc ([0x80, 0x24] ++ point)

/-- Shared tail of `k256::gen_key` / `k256::jwk_to_did_key` with the
multicodec prefix 0xe7 0x01. -/
def k256DidKeyFromPoint (point : List Nat) : String :=
  multibaseB58btc ([0xe7, 0x01] ++ point)

/-- `p256::gen_key`, given the randomly drawn secret: portable JWK plus
encoded public key. -/
def p256GenKey (ops : CurveOps) (secret : List Nat) : JwkEcKey × String :=
  (⟨"P-256", secret⟩, p256DidKeyFromPoint (ops.pubOf secret))

/-- `k256::gen_key`, given the randomly drawn secret. -/
def k256GenKey (ops : CurveOps) (secret : List Nat) : JwkEcKey × String :=
  (⟨"secp256k1", secret⟩, k256DidKeyFromPoint (ops.pubOf secret))

/-- `crypto::jwk_to_did_key`: dispatch on the curve name. -/
def jwk_to_did_key (prim : EcPrimitives) (jwk : JwkEcKey) : Except CryptoErr String :=
  if jwk.crv = "P-256" then .ok (p256DidKeyFromPoint (prim.p256.pubOf jwk.d))
  else if jwk.crv = "secp256k1" then .ok (k256DidKeyFromPoint (prim.k256.pubOf jwk.d))
  else .error .unsupportedCurve

/-- Curve dispatch of `crypto::sign_operation`: base64url-encode the raw
signature over the payload. -/
def curveSign (prim : EcPrimitives) (jwk : JwkEcKey) (payload : List Nat) :
    Except CryptoErr (List Char) :=
  if jwk.crv = "P-256" then .ok (base64urlNoPad (prim.p256.ecSign jwk.d payload))
  else if jwk.crv = "secp256k1" then .ok (base64urlNoPad (prim.k256.ecSign jwk.d payload))
  else .error .unsupportedCurve

/-- `crypto::sign_operation`: serialize the operation (DAG-CBOR, modelled
by the `ser` parameter), sign those bytes, and insert the signature string
as the `sig` field.  The `expect` panic on a non-object becomes an error. -/
def sign_operation (prim : EcPrimitives) (ser : Json → List Nat) (jwk : JwkEcKey)
    (operation : Json) : Except CryptoErr Json :=
  match curveSign prim jwk (ser operation) with
  | .error e => .error e
  | .ok sigChars =>
    match operation with
    | .obj fields => .ok (.obj (insertField fields "sig" (.str (String.mk sigChars))))
    | _ => .error .notAnObject

/-- `crypto::validate`: multibase-decode the key, dispatch on the 2-byte
multicodec prefix, verify the raw signature over the content bytes. -/
def validate (prim : EcPrimitives) (multibaseKey : String) (signature : List Nat)
    (content : List Nat) : Except CryptoErr Unit :=
  match multibaseDecode multibaseKey with
  | none => .error .keyDecodingError
  | some bytes =>
    match bytes with
    | b0 :: b1 :: rest =>
      if b0 = 231 ∧ b1 = 1 then
        if prim.k256.ecVerify rest content signature then .ok () else .error .signatureError
      else if b0 = 128 ∧ b1 = 36 then
        if prim.p256.ecVerify rest content signature then .ok () else .error .signatureError
      else .error .unsupportedCurve
    | _ => .error .unsupportedCurve



/-! ## Auxiliary definitions for the claim statements -/

/-- Successful payload of an `Except`. -/
def exceptOk {ε α : Type} : Except ε α → Option α
  | .ok a => some a
  | .error _ => none

/-- Little-endian base-`b` value of a digit list (spec-side inverse of
`natToDigitsRev`). -/
def valRevB (b : Nat) : List Nat → Nat
  | [] => 0
  | d :: ds => d + b * valRevB b ds

/-- The environment with the DNS answer for one handle replaced by an
empty record set (a handle publishing no `did=` TXT records). -/
def envWithNoDnsFor (env : ResolveEnv) (hdl : String) : ResolveEnv :=
  { env with dnsTxt := fun x => if x = hdl then some [] else env.dnsTxt x }

/-- A DID counts as proof-discovered when some handle vouches for it via
the HTTPS well-known document or via DNS. -/
def proofDiscovered (env : ResolveEnv) (did : String) : Prop :=
  ∃ hdl, resolveHandleHttp env hdl = .ok did ∨ resolveHandleDns env hdl = .ok did

end Tandem

namespace Tandem

/-! ## Claim C7 -/

/-- C7: hostname validation rejects every string ending in `.local`,
`.localhost`, `.internal` or `.arpa`, every string containing a character
outside `[A-Za-z0-9.-]`, every string with a dot-delimited label that is
empty, longer than 63 bytes, or starting/ending with `-`, every string
longer than 253 bytes, and the empty string; `example.com`,
`VaLid.HoStNaMe` and `123.456` pass, and handles are normalized to lower
case. -/
theorem C7_hostname_validation :
    (∀ s : String,
      (charsEndWith s.data (".local").data || charsEndWith s.data (".localhost").data
        || charsEndWith s.data (".internal").data || charsEndWith s.data (".arpa").data) = true →
      is_valid_hostname s = false)
    ∧ (∀ s : String, ∀ c ∈ s.data, is_valid_char c = false → is_valid_hostname s = false)
    ∧ (∀ s : String, ∀ label ∈ splitOnChar '.' s.data,
        (label.isEmpty || decide (63 < utf8Len label)
          || charsStartWith label [Char.ofNat 45] || charsEndWith label [Char.ofNat 45]) = true →
        is_valid_hostname s = false)
    ∧ (∀ s : String, 253 < utf8Len s.data → is_valid_hostname s = false)
    ∧ is_valid_hostname "" = false
    ∧ is_valid_hostname "example.com" = true
    ∧ is_valid_hostname "VaLid.HoStNaMe" = true
    ∧ is_valid_hostname "123.456" = true
    ∧ is_valid_handle "VaLid.HoStNaMe" = some "valid.hostname" := by
  refine ⟨?_, ?_, ?_, ?_, by decide, by decide, by decide, by decide, by decide⟩
  · intro s h
    unfold is_valid_hostname hostnameOkChars
    simp only [Bool.not_eq_false']
    simp only [Bool.or_eq_true] at h ⊢
    tauto
  · intro s c hc hinv
    unfold is_valid_hostname hostnameOkChars
    simp only [Bool.not_eq_false']
    simp only [Bool.or_eq_true]
    have : (s.data.any (fun c => !(is_valid_char c))) = true := by
      rw [List.any_eq_true]
      exact ⟨c, hc, by simp [hinv]⟩
    tauto
  · intro s label hlabel hbad
    unfold is_valid_hostname hostnameOkChars
    simp only [Bool.not_eq_false']
    simp only [Bool.or_eq_true]
    have : ((splitOnChar '.' s.data).any (fun label =>
        label.isEmpty || decide (63 < utf8Len label)
          || charsStartWith label [Char.ofNat 45] || charsEndWith label [Char.ofNat 45])) = true := by
      rw [List.any_eq_true]
      exact ⟨label, hlabel, hbad⟩
    tauto
  · intro s h
    unfold is_valid_hostname hostnameOkChars
    simp only [Bool.not_eq_false']
    simp only [Bool.or_eq_true]
    have : decide (253 < utf8Len s.data) = true := by simpa using h
    tauto

set_option maxRecDepth 8000 in
/-- Witness for C7 at concrete inputs. -/
theorem C7_hostname_validation_witness :
    is_valid_hostname "x.local" = false
    ∧ is_valid_hostname "asdf@fasd" = false
    ∧ is_valid_hostname "empty..label" = false
    ∧ is_valid_hostname (String.mk (List.replicate 254 'a')) = false :=
  ⟨C7_hostname_validation.1 "x.local" (by decide),
   C7_hostname_validation.2.1 "asdf@fasd" '@' (by decide) (by decide),
   C7_hostname_validation.2.2.1 "empty..label" [] (by decide) (by decide),
   C7_hostname_validation.2.2.2.1 (String.mk (List.replicate 254 'a')) (by decide)⟩


/-! ## JSON map and patch lemmas -/

theorem lookupField_insertField_self (fields : List (String × Json)) (key : String) (v : Json) :
    lookupField (insertField fields key v) key = some v := by
  induction fields with
  | nil => simp [insertField, lookupField]
  | cons p rest ih =>
    obtain ⟨k, w⟩ := p
    by_cases h1 : k = key
    · simp [insertField, h1, lookupField]
    · simp [insertField, h1, lookupField, ih]

theorem lookupField_insertField_ne (fields : List (String × Json)) (key key2 : String)
    (v : Json) (h : key2 ≠ key) :
    lookupField (insertField fields key v) key2 = lookupField fields key2 := by
  have h4 : ¬ key = key2 := fun hh => h hh.symm
  induction fields with
  | nil => simp [insertField, lookupField, h4]
  | cons p rest ih =>
    obtain ⟨k, w⟩ := p
    by_cases h1 : k = key
    · subst h1
      simp [insertField, lookupField, h4]
    · by_cases h5 : k = key2
      · subst h5
        simp [insertField, h1, lookupField, h]
      · simp [insertField, h1, h5, lookupField, ih]

theorem insertField_length_of_none (fields : List (String × Json)) (key : String) (v : Json)
    (h : lookupField fields key = none) :
    (insertField fields key v).length = fields.length + 1 := by
  induction fields with
  | nil => simp [insertField]
  | cons p rest ih =>
    obtain ⟨k, w⟩ := p
    by_cases hk : k = key
    · subst hk
      simp [lookupField] at h
    · have h2 : lookupField rest key = none := by simpa [lookupField, hk] using h
      simp [insertField, hk, ih h2]

theorem insertField_length_of_some (fields : List (String × Json)) (key : String) (v w : Json)
    (h : lookupField fields key = some w) :
    (insertField fields key v).length = fields.length := by
  induction fields with
  | nil => simp [lookupField] at h
  | cons p rest ih =>
    obtain ⟨k, u⟩ := p
    by_cases hk : k = key
    · simp [insertField, hk]
    · have h2 : lookupField rest key = some w := by simpa [lookupField, hk] using h
      simp [insertField, hk, ih h2]

theorem applyPatch_cons_ok (j built : Json) (d : PatchDirective) (rest : List PatchDirective)
    (h : applyPatch j (d :: rest) = .ok built) :
    ∃ j2, applyDirective j d = .ok j2 ∧ applyPatch j2 rest = .ok built := by
  unfold applyPatch at h
  cases hd : applyDirective j d with
  | error e => rw [hd] at h; exact absurd h (by simp)
  | ok j2 => rw [hd] at h; exact ⟨j2, rfl, h⟩


theorem pairwise_getLast_or {α : Type} {R : α → α → Prop} :
    ∀ {l : List α} {x : α}, List.Pairwise R l → l.getLast? = some x →
      ∀ y ∈ l, y = x ∨ R y x := by
  intro l
  induction l with
  | nil => intro x _ hx y hy; simp at hy
  | cons a rest ih =>
    intro x hp hx y hy
    cases rest with
    | nil =>
      have hax : a = x := by simpa using hx
      have hya : y = a := by simpa using hy
      exact Or.inl (hya.trans hax)
    | cons b t =>
      rw [List.getLast?_cons_cons] at hx
      rcases List.mem_cons.mp hy with rfl | hy2
      · exact Or.inr ((List.pairwise_cons.mp hp).1 x (List.mem_of_mem_getLast? hx))
      · exact ih (List.pairwise_cons.mp hp).2 hx y hy2

theorem applyPatch_append (j : Json) (l1 l2 : List PatchDirective) :
    applyPatch j (l1 ++ l2) =
      match applyPatch j l1 with
      | .ok j2 => applyPatch j2 l2
      | .error e => .error e := by
  induction l1 generalizing j with
  | nil => rfl
  | cons d rest ih =>
    simp only [List.cons_append, applyPatch]
    cases applyDirective j d with
    | ok j2 => exact ih j2
    | error e => rfl

theorem replaceAt_ok_getField (v : Json) (key : String) (j j2 : Json)
    (h : replaceAt v [key] j = .ok j2) (hidx : parseIndex key.data = none) :
    getField j2 key = some v := by
  cases j with
  | obj fields =>
    simp only [replaceAt] at h
    cases hl : lookupField fields key with
    | none => rw [hl] at h; simp at h
    | some w =>
      rw [hl] at h
      simp only [Except.ok.injEq] at h
      subst h
      simp [getField, lookupField_insertField_self]
  | arr items =>
    simp only [replaceAt, hidx] at h
    exact absurd h (by simp)
  | null => simp [replaceAt] at h
  | bool b => simp [replaceAt] at h
  | num n => simp [replaceAt] at h
  | str s => simp [replaceAt] at h

theorem sign_operation_obj (prim : EcPrimitives) (ser : Json → List Nat) (jwk : JwkEcKey)
    (fields : List (String × Json)) (hcrv : jwk.crv = "P-256" ∨ jwk.crv = "secp256k1") :
    sign_operation prim ser jwk (.obj fields)
      = .ok (.obj (insertField fields "sig"
          (.str (String.mk (base64urlNoPad
            ((if jwk.crv = "P-256" then prim.p256.ecSign else prim.k256.ecSign)
              jwk.d (ser (.obj fields)))))))) := by
  rcases hcrv with h | h
  · simp [sign_operation, curveSign, h]
  · have h2 : jwk.crv ≠ "P-256" := by rw [h]; decide
    simp [sign_operation, curveSign, h, h2]

theorem sign_preserves_getField (prim : EcPrimitives) (ser : Json → List Nat) (jwk : JwkEcKey)
    (op signed : Json) (key : String)
    (h : sign_operation prim ser jwk op = .ok signed) (hk : key ≠ "sig") :
    getField signed key = getField op key := by
  unfold sign_operation at h
  cases hc : curveSign prim jwk (ser op) with
  | error e => rw [hc] at h; simp at h
  | ok sc =>
    rw [hc] at h
    cases op with
    | obj fields =>
      simp only [Except.ok.injEq] at h
      subst h
      simp [getField, lookupField_insertField_ne _ _ _ _ hk]
    | null => simp at h
    | bool b => simp at h
    | num n => simp at h
    | str s => simp at h
    | arr items => simp at h

/-! ## Claim C9 -/

/-- C9: the patcher applies directives strictly in order, each building on
the previous result (splitting a directive list is sequential composition),
and applying `remove /sig` then `replace /prev` to an operation lacking a
`sig` field fails with the patch-application error instead of silently
succeeding. -/
theorem C9_patch_order_and_missing_sig :
    (∀ (j : Json) (l1 l2 : List PatchDirective),
      applyPatch j (l1 ++ l2) =
        match applyPatch j l1 with
        | .ok j2 => applyPatch j2 l2
        | .error e => .error e)
    ∧ (∀ (fields : List (String × Json)) (v : Json),
        lookupField fields "sig" = none →
        applyPatch (.obj fields) [.remove ["sig"], .replace ["prev"] v]
          = .error .patchApplicationError) := by
  refine ⟨applyPatch_append, ?_⟩
  intro fields v h
  simp [applyPatch, applyDirective, removeAt, h]

/-- Witness for C9: a concrete operation without `sig` makes the
remove-then-replace patch fail. -/
theorem C9_patch_order_and_missing_sig_witness :
    applyPatch (.obj [("prev", Json.str "p")])
        [.remove ["sig"], .replace ["prev"] (.str "cid")]
      = .error .patchApplicationError :=
  C9_patch_order_and_missing_sig.2 [("prev", Json.str "p")] (Json.str "cid") rfl

/-! ## Claim C3 -/

/-- C3: the audit log is stably sorted by `createdAt` ascending and the tip
is an entry with maximal `createdAt`; the empty log fails with
`NoOperationsFound`; and the `prev` field of the freshly built operation
(the append-handle patch applied to the tip, then signed) equals the `cid`
of that maximal entry. -/
theorem C3_chain_tip_selection :
    (did_plc_last_operation [] = .error .noOperationsFound)
    ∧ (∀ log : List AuditEntry, log ≠ [] → ∃ cid op, did_plc_last_operation log = .ok (cid, op))
    ∧ (∀ (log : List AuditEntry) (cid : String) (op : Json),
        did_plc_last_operation log = .ok (cid, op) →
        ∃ e ∈ log, e.cid = cid ∧ e.operation = op ∧ ∀ e2 ∈ log, e2.createdAt ≤ e.createdAt)
    ∧ (∀ (log : List AuditEntry) (cid : String) (op : Json) (newHandle : String)
        (built signed : Json) (prim : EcPrimitives) (ser : Json → List Nat) (jwk : JwkEcKey),
        did_plc_last_operation log = .ok (cid, op) →
        applyPatch op (appendHandleDirectives newHandle cid) = .ok built →
        sign_operation prim ser jwk built = .ok signed →
        getField built "prev" = some (.str cid) ∧ getField signed "prev" = some (.str cid)) := by
  refine ⟨rfl, ?_, ?_, ?_⟩
  · intro log hne
    cases hlast : (auditSort log).getLast? with
    | none =>
      exfalso
      have hnil : auditSort log = [] := List.getLast?_eq_none_iff.mp hlast
      have hperm := List.perm_insertionSort auditLe log
      rw [show List.insertionSort auditLe log = auditSort log from rfl, hnil] at hperm
      exact hne hperm.symm.eq_nil
    | some e =>
      exact ⟨e.cid, e.operation, by simp [did_plc_last_operation, hlast]⟩
  · intro log cid op hok
    unfold did_plc_last_operation at hok
    cases hlast : (auditSort log).getLast? with
    | none => rw [hlast] at hok; simp at hok
    | some e =>
      rw [hlast] at hok
      simp only [Except.ok.injEq, Prod.mk.injEq] at hok
      have hperm := List.perm_insertionSort auditLe log
      have hmem : e ∈ auditSort log := List.mem_of_mem_getLast? hlast
      have hmemlog : e ∈ log := hperm.mem_iff.mp hmem
      haveI : IsTotal AuditEntry auditLe := ⟨fun a b => Int.le_total _ _⟩
      haveI : IsTrans AuditEntry auditLe := ⟨fun a b c hab hbc => le_trans hab hbc⟩
      have hsorted := List.sorted_insertionSort auditLe log
      refine ⟨e, hmemlog, hok.1, hok.2, ?_⟩
      intro e2 he2
      have he2s : e2 ∈ auditSort log := hperm.mem_iff.mpr he2
      rcases pairwise_getLast_or hsorted hlast e2 he2s with rfl | hle
      · exact le_refl _
      · exact hle
  · intro log cid op newHandle built signed prim ser jwk hok hpatch hsig
    rw [appendHandleDirectives] at hpatch
    obtain ⟨j1, h1, hpatch⟩ := applyPatch_cons_ok _ _ _ _ hpatch
    obtain ⟨j2, h2, hpatch⟩ := applyPatch_cons_ok _ _ _ _ hpatch
    obtain ⟨j3, h3, hpatch⟩ := applyPatch_cons_ok _ _ _ _ hpatch
    have hj3 : j3 = built := by simpa [applyPatch] using hpatch
    subst hj3
    have hrep : replaceAt (.str cid) ["prev"] j2 = .ok j3 := h3
    have hbuilt : getField j3 "prev" = some (.str cid) :=
      replaceAt_ok_getField _ _ _ _ hrep (by decide)
    exact ⟨hbuilt, by
      rw [sign_preserves_getField prim ser jwk j3 signed "prev" hsig (by decide)]
      exact hbuilt⟩

/-- Witness for C3 on a concrete three-entry log whose tip is `c2`. -/
theorem C3_chain_tip_selection_witness :
    (∃ cid op, did_plc_last_operation
        [⟨Json.null, "c1", 5⟩,
         ⟨Json.obj [("prev", .str "x"), ("sig", .str "s"), ("alsoKnownAs", .arr [])], "c2", 9⟩,
         ⟨Json.null, "c3", 7⟩] = .ok (cid, op))
    ∧ (∃ e ∈ [(⟨Json.null, "c1", 5⟩ : AuditEntry),
         ⟨Json.obj [("prev", .str "x"), ("sig", .str "s"), ("alsoKnownAs", .arr [])], "c2", 9⟩,
         ⟨Json.null, "c3", 7⟩],
        e.cid = "c2"
          ∧ e.operation = Json.obj [("prev", .str "x"), ("sig", .str "s"), ("alsoKnownAs", .arr [])]
          ∧ ∀ e2 ∈ [(⟨Json.null, "c1", 5⟩ : AuditEntry),
              ⟨Json.obj [("prev", .str "x"), ("sig", .str "s"), ("alsoKnownAs", .arr [])], "c2", 9⟩,
              ⟨Json.null, "c3", 7⟩],
              e2.createdAt ≤ e.createdAt)
    ∧ (getField (.obj [("prev", .str "c2"), ("alsoKnownAs", .arr [.str "at://h.x"])]) "prev"
          = some (.str "c2")
        ∧ getField (.obj [("prev", .str "c2"), ("alsoKnownAs", .arr [.str "at://h.x"]),
            ("sig", .str "")]) "prev" = some (.str "c2")) :=
  ⟨C3_chain_tip_selection.2.1
      [⟨Json.null, "c1", 5⟩,
       ⟨Json.obj [("prev", .str "x"), ("sig", .str "s"), ("alsoKnownAs", .arr [])], "c2", 9⟩,
       ⟨Json.null, "c3", 7⟩] (by simp),
   C3_chain_tip_selection.2.2.1
      [⟨Json.null, "c1", 5⟩,
       ⟨Json.obj [("prev", .str "x"), ("sig", .str "s"), ("alsoKnownAs", .arr [])], "c2", 9⟩,
       ⟨Json.null, "c3", 7⟩] "c2"
      (Json.obj [("prev", .str "x"), ("sig", .str "s"), ("alsoKnownAs", .arr [])]) rfl,
   C3_chain_tip_selection.2.2.2
      [⟨Json.null, "c1", 5⟩,
       ⟨Json.obj [("prev", .str "x"), ("sig", .str "s"), ("alsoKnownAs", .arr [])], "c2", 9⟩,
       ⟨Json.null, "c3", 7⟩] "c2"
      (Json.obj [("prev", .str "x"), ("sig", .str "s"), ("alsoKnownAs", .arr [])]) "h.x"
      (.obj [("prev", .str "c2"), ("alsoKnownAs", .arr [.str "at://h.x"])])
      (.obj [("prev", .str "c2"), ("alsoKnownAs", .arr [.str "at://h.x"]), ("sig", .str "")])
      ⟨⟨fun _ => [], fun _ _ => [], fun _ _ _ => true⟩, ⟨fun _ => [], fun _ _ => [], fun _ _ _ => true⟩⟩
      (fun _ => []) ⟨"P-256", []⟩ rfl rfl rfl⟩


/-! ## Claim C4 -/

/-- C4 (amended): for every JSON-object operation and supported-curve key,
`sign_operation` returns the input object with the `sig` field set to the
base64url-without-padding encoding of the ECDSA signature over the
serialized (DAG-CBOR) input; every field other than `sig` is unchanged, and
when the input lacks a `sig` field exactly one field is added (a `sig`
field already present is overwritten, leaving the field count unchanged). -/
theorem C4_sign_operation_frame (prim : EcPrimitives) (ser : Json → List Nat)
    (jwk : JwkEcKey) (fields : List (String × Json))
    (hcrv : jwk.crv = "P-256" ∨ jwk.crv = "secp256k1") :
    ∃ sig : String,
      sig = String.mk (base64urlNoPad
          ((if jwk.crv = "P-256" then prim.p256.ecSign else prim.k256.ecSign)
            jwk.d (ser (.obj fields))))
      ∧ sign_operation prim ser jwk (.obj fields)
          = .ok (.obj (insertField fields "sig" (.str sig)))
      ∧ lookupField (insertField fields "sig" (.str sig)) "sig" = some (.str sig)
      ∧ (∀ k, k ≠ "sig" →
          lookupField (insertField fields "sig" (.str sig)) k = lookupField fields k)
      ∧ (lookupField fields "sig" = none →
          (insertField fields "sig" (.str sig)).length = fields.length + 1)
      ∧ (∀ w, lookupField fields "sig" = some w →
          (insertField fields "sig" (.str sig)).length = fields.length) :=
  ⟨_, rfl, sign_operation_obj prim ser jwk fields hcrv,
    lookupField_insertField_self _ _ _,
    fun k hk => lookupField_insertField_ne _ _ _ _ hk,
    fun h => insertField_length_of_none _ _ _ h,
    fun w h => insertField_length_of_some _ _ _ _ h⟩

/-- Counterexample to C4 as stated: when the input operation already has a
`sig` field the result has the same number of fields as the input — no
field is added, the existing `sig` is overwritten. -/
theorem C4_sign_operation_counterexample :
    sign_operation
        ⟨⟨fun _ => [], fun _ _ => [], fun _ _ _ => true⟩,
         ⟨fun _ => [], fun _ _ => [], fun _ _ _ => true⟩⟩
        (fun _ => []) ⟨"P-256", []⟩ (.obj [("sig", .str "old")])
      = .ok (.obj [("sig", .str "")])
    ∧ numFields (.obj [("sig", .str "old")]) = 1
    ∧ numFields (.obj [("sig", .str "")]) = 1
    ∧ numFields (.obj [("sig", .str "")]) ≠ numFields (.obj [("sig", .str "old")]) + 1 :=
  ⟨rfl, rfl, rfl, by decide⟩

/-- Witness for C4 at a concrete key and operation without a `sig` field. -/
theorem C4_sign_operation_frame_witness :
    sign_operation
        ⟨⟨fun _ => [], fun _ _ => [], fun _ _ _ => true⟩,
         ⟨fun _ => [], fun _ _ => [], fun _ _ _ => true⟩⟩
        (fun _ => []) ⟨"P-256", []⟩ (.obj [("prev", .str "p")])
      = .ok (.obj [("prev", .str "p"), ("sig", .str "")]) := by
  obtain ⟨sig, hsig, heq, -, -, -, -⟩ :=
    C4_sign_operation_frame
      ⟨⟨fun _ => [], fun _ _ => [], fun _ _ _ => true⟩,
       ⟨fun _ => [], fun _ _ => [], fun _ _ _ => true⟩⟩
      (fun _ => []) ⟨"P-256", []⟩ [("prev", .str "p")] (Or.inl rfl)
  rw [hsig] at heq
  exact heq


/-! ## Base58 encoding lemmas -/

theorem natToDigitsRev_zero (b : Nat) : ∀ fuel, natToDigitsRev b fuel 0 = []
  | 0 => rfl
  | fuel + 1 => by simp [natToDigitsRev]

theorem natToDigitsRev_fuel (b : Nat) (hb : 2 ≤ b) :
    ∀ f1 f2 n, n ≤ f1 → n ≤ f2 → natToDigitsRev b f1 n = natToDigitsRev b f2 n := by
  intro f1
  induction f1 with
  | zero =>
    intro f2 n h1 _
    have : n = 0 := by omega
    subst this
    rw [natToDigitsRev_zero, natToDigitsRev_zero]
  | succ f ih =>
    intro f2 n h1 h2
    by_cases hn : n = 0
    · subst hn
      rw [natToDigitsRev_zero, natToDigitsRev_zero]
    · obtain ⟨g, rfl⟩ : ∃ g, f2 = g + 1 := by
        cases f2 with
        | zero => omega
        | succ g => exact ⟨g, rfl⟩
      have hdiv : n / b < n := Nat.div_lt_self (Nat.pos_of_ne_zero hn) (by omega)
      simp only [natToDigitsRev, if_neg hn]
      rw [ih g (n / b) (by omega) (by omega)]

theorem valRevB_natToDigitsRev (b : Nat) (hb : 2 ≤ b) :
    ∀ fuel n, n ≤ fuel → valRevB b (natToDigitsRev b fuel n) = n := by
  intro fuel
  induction fuel with
  | zero =>
    intro n h
    have : n = 0 := by omega
    subst this
    rfl
  | succ f ih =>
    intro n h
    by_cases hn : n = 0
    · subst hn
      rw [natToDigitsRev_zero]
      rfl
    · have hdiv : n / b < n := Nat.div_lt_self (Nat.pos_of_ne_zero hn) (by omega)
      simp only [natToDigitsRev, if_neg hn, valRevB]
      rw [ih (n / b) (by omega)]
      exact Nat.mod_add_div n b

theorem natToDigitsRev_lt (b : Nat) (hb : 2 ≤ b) :
    ∀ fuel n, ∀ d ∈ natToDigitsRev b fuel n, d < b := by
  intro fuel
  induction fuel with
  | zero => intro n d hd; simp [natToDigitsRev] at hd
  | succ f ih =>
    intro n d hd
    by_cases hn : n = 0
    · subst hn
      rw [natToDigitsRev_zero] at hd
      simp at hd
    · simp only [natToDigitsRev, if_neg hn] at hd
      rcases List.mem_cons.mp hd with rfl | hd2
      · exact Nat.mod_lt n (by omega)
      · exact ih (n / b) d hd2

theorem natToDigitsRev_ne_nil (b : Nat) (fuel n : Nat) (hn : n ≠ 0) (h : n ≤ fuel) :
    natToDigitsRev b fuel n ≠ [] := by
  cases fuel with
  | zero => omega
  | succ f => simp [natToDigitsRev, hn]

theorem natToDigitsRev_getLast (b : Nat) (hb : 2 ≤ b) :
    ∀ fuel n, n ≤ fuel → n ≠ 0 → ∀ x, (natToDigitsRev b fuel n).getLast? = some x → x ≠ 0 := by
  intro fuel
  induction fuel with
  | zero => intro n h hn; omega
  | succ f ih =>
    intro n h hn x hx
    simp only [natToDigitsRev, if_neg hn] at hx
    by_cases hq : n / b = 0
    · rw [hq, natToDigitsRev_zero] at hx
      simp at hx
      have h0 := Nat.div_add_mod n b
      rw [hq, Nat.mul_zero, Nat.zero_add] at h0
      omega
    · have hdivle : n / b ≤ f := by
        have := Nat.div_lt_self (Nat.pos_of_ne_zero hn) (show 1 < b by omega)
        omega
      cases hl : natToDigitsRev b f (n / b) with
      | nil => exact absurd hl (natToDigitsRev_ne_nil b f (n / b) hq hdivle)
      | cons y ys =>
        rw [hl, List.getLast?_cons_cons] at hx
        rw [← hl] at hx
        exact ih (n / b) hdivle hq x hx

theorem valRevB_eq_zero (b : Nat) (hb : 1 ≤ b) :
    ∀ l : List Nat, valRevB b l = 0 → ∀ d ∈ l, d = 0 := by
  intro l
  induction l with
  | nil => intro _ d hd; simp at hd
  | cons e es ih =>
    intro h d hd
    simp only [valRevB] at h
    have he : e = 0 ∧ b * valRevB b es = 0 := by omega
    rcases List.mem_cons.mp hd with rfl | hd2
    · exact he.1
    · have : valRevB b es = 0 := by
        rcases Nat.mul_eq_zero.mp he.2 with hb0 | hv
        · omega
        · exact hv
      exact ih this d hd2

theorem natToDigitsRev_of_valRevB (b : Nat) (hb : 2 ≤ b) :
    ∀ l : List Nat, (∀ d ∈ l, d < b) → (∀ x, l.getLast? = some x → x ≠ 0) →
      natToDigitsRev b (valRevB b l) (valRevB b l) = l := by
  intro l
  induction l with
  | nil => intro _ _; rfl
  | cons d ds ih =>
    intro hlt hlast
    have hd : d < b := hlt d (List.mem_cons_self _ _)
    have hvne : valRevB b (d :: ds) ≠ 0 := by
      intro h0
      obtain ⟨x, hx⟩ : ∃ x, (d :: ds).getLast? = some x := by
        cases hgl : (d :: ds).getLast? with
        | none => exact absurd (List.getLast?_eq_none_iff.mp hgl) (by simp)
        | some y => exact ⟨y, rfl⟩
      have hx0 : x = 0 :=
        valRevB_eq_zero b (by omega) _ h0 x (List.mem_of_mem_getLast? hx)
      exact hlast x hx hx0
    obtain ⟨f, hf⟩ := Nat.exists_eq_succ_of_ne_zero hvne
    have hmod : valRevB b (d :: ds) % b = d := by
      simp only [valRevB]
      rw [Nat.add_mul_mod_self_left]
      exact Nat.mod_eq_of_lt hd
    have hdivv : valRevB b (d :: ds) / b = valRevB b ds := by
      simp only [valRevB]
      rw [Nat.add_mul_div_left d (valRevB b ds) (by omega)]
      rw [Nat.div_eq_of_lt hd, Nat.zero_add]
    have hwle : valRevB b ds ≤ f := by
      have h2w : 2 * valRevB b ds ≤ b * valRevB b ds :=
        Nat.mul_le_mul_right (valRevB b ds) hb
      have : valRevB b (d :: ds) = d + b * valRevB b ds := rfl
      omega
    have hlt2 : ∀ x ∈ ds, x < b := fun x hx => hlt x (List.mem_cons_of_mem d hx)
    have hlast2 : ∀ x, ds.getLast? = some x → x ≠ 0 := by
      intro x hx
      cases ds with
      | nil => simp at hx
      | cons e es => exact hlast x (by rw [List.getLast?_cons_cons]; exact hx)
    conv_lhs => rw [hf]
    simp only [natToDigitsRev, hf.symm, if_neg hvne]
    rw [hmod, hdivv]
    rw [natToDigitsRev_fuel b hb f (valRevB b ds) (valRevB b ds) hwle le_rfl]
    rw [ih hlt2 hlast2]

theorem valRevB_eq_foldl_reverse (b : Nat) (l : List Nat) :
    (l.reverse).foldl (fun a d => a * b + d) 0 = valRevB b l := by
  induction l with
  | nil => rfl
  | cons d ds ih =>
    rw [List.reverse_cons, List.foldl_append, ih]
    simp only [List.foldl, valRevB]
    ring

theorem bytesToNat_zero_head (pre rest : List Nat) (h : ∀ x ∈ pre, x = 0) :
    bytesToNat (pre ++ rest) = bytesToNat rest := by
  induction pre with
  | nil => rfl
  | cons p ps ih =>
    have hp : p = 0 := h p (List.mem_cons_self _ _)
    subst hp
    unfold bytesToNat at *
    simp only [List.cons_append, List.foldl_cons, Nat.zero_mul, Nat.add_zero]
    exact ih (fun x hx => h x (List.mem_cons_of_mem _ hx))

theorem head_dropWhile_false {α : Type} (p : α → Bool) :
    ∀ l : List α, ∀ x, (l.dropWhile p).head? = some x → p x = false := by
  intro l
  induction l with
  | nil => intro x hx; simp [List.dropWhile] at hx
  | cons a as ih =>
    intro x hx
    rw [List.dropWhile_cons] at hx
    by_cases hp : p a
    · rw [if_pos hp] at hx
      exact ih x hx
    · rw [if_neg hp] at hx
      simp at hx
      subst hx
      simpa using hp

theorem b58Val_b58Char : ∀ d, d < 58 → b58Val (b58Char d) = some d := by decide

theorem b58Char_ne_one : ∀ d, d < 58 → 0 < d → (b58Char d == '1') = false := by decide

theorem mapM_b58Val_map (ds : List Nat) (h : ∀ d ∈ ds, d < 58) :
    (ds.map b58Char).mapM b58Val = some ds := by
  induction ds with
  | nil => rfl
  | cons d rest ih =>
    have hv : b58Val (b58Char d) = some d := b58Val_b58Char d (h d (List.mem_cons_self _ _))
    have ihr := ih (fun x hx => h x (List.mem_cons_of_mem _ hx))
    simp only [List.map_cons, List.mapM_cons, hv, ihr, Option.bind_eq_bind,
      Option.some_bind]
    rfl

theorem takeWhile_replicate_append (c : Char) (z : Nat) (l : List Char)
    (hl : ∀ x, l.head? = some x → (x == c) = false) :
    (List.replicate z c ++ l).takeWhile (fun x => x == c) = List.replicate z c := by
  induction z with
  | zero =>
    simp only [List.replicate, List.nil_append]
    cases l with
    | nil => rfl
    | cons a as =>
      have := hl a rfl
      rw [List.takeWhile_cons, this]
      simp
  | succ n ih =>
    simp only [List.replicate, List.cons_append, List.takeWhile_cons, beq_self_eq_true,
      if_true]
    rw [ih]

theorem base58_decode_encode (bs : List Nat) (h : ∀ x ∈ bs, x < 256) :
    base58Decode (base58Encode bs) = some bs := by
  have hsplit : bs.takeWhile (fun b => b == 0) ++ bs.dropWhile (fun b => b == 0) = bs :=
    List.takeWhile_append_dropWhile _ _
  have hzero : ∀ x ∈ bs.takeWhile (fun b => b == 0), x = 0 := by
    intro x hx
    simpa using List.mem_takeWhile_imp hx
  have hn : bytesToNat bs = bytesToNat (bs.dropWhile (fun b => b == 0)) := by
    conv_lhs => rw [← hsplit]
    exact bytesToNat_zero_head _ _ hzero
  have hresthead : ∀ x, (bs.dropWhile (fun b => b == 0)).head? = some x → x ≠ 0 := by
    intro x hx
    have := head_dropWhile_false (fun b => b == 0) bs x hx
    simpa using this
  have hrestlt : ∀ x ∈ bs.dropWhile (fun b => b == 0), x < 256 :=
    fun x hx => h x ((List.dropWhile_sublist _).subset hx)
  have hvalrest : bytesToNat (bs.dropWhile (fun b => b == 0))
      = valRevB 256 (bs.dropWhile (fun b => b == 0)).reverse := by
    unfold bytesToNat
    rw [← valRevB_eq_foldl_reverse 256 (bs.dropWhile (fun b => b == 0)).reverse,
      List.reverse_reverse]
  -- the digit characters of the non-zero part never start with the zero digit
  have hdigitshead : ∀ y, ((natTo58Rev (bytesToNat bs)).reverse.map b58Char).head?
      = some y → (y == '1') = false := by
    intro y hy
    rw [List.head?_map, List.head?_reverse] at hy
    cases hgl : (natTo58Rev (bytesToNat bs)).getLast? with
    | none => rw [hgl] at hy; simp at hy
    | some x =>
      rw [hgl] at hy
      simp only [Option.map_some', Option.some.injEq] at hy
      have hnne : bytesToNat bs ≠ 0 := by
        intro h0
        rw [h0] at hgl
        rw [show natTo58Rev 0 = [] from rfl] at hgl
        simp at hgl
      have hxne : x ≠ 0 :=
        natToDigitsRev_getLast 58 (by omega) (bytesToNat bs) (bytesToNat bs) le_rfl hnne x hgl
      have hxlt : x < 58 :=
        natToDigitsRev_lt 58 (by omega) (bytesToNat bs) (bytesToNat bs) x
          (List.mem_of_mem_getLast? hgl)
      rw [← hy]
      exact b58Char_ne_one x hxlt (Nat.pos_of_ne_zero hxne)
  unfold base58Encode base58Decode
  rw [takeWhile_replicate_append _ _ _ hdigitshead, List.length_replicate]
  have hdrop := List.drop_left
      (List.replicate ((bs.takeWhile (fun b => b == 0)).length) ('1' : Char))
      ((natTo58Rev (bytesToNat bs)).reverse.map b58Char)
  rw [List.length_replicate] at hdrop
  rw [hdrop]
  have hdiglt : ∀ d ∈ (natTo58Rev (bytesToNat bs)).reverse, d < 58 := by
    intro d hd
    exact natToDigitsRev_lt 58 (by omega) (bytesToNat bs) (bytesToNat bs) d
      (List.mem_reverse.mp hd)
  rw [mapM_b58Val_map _ hdiglt]
  have hdigval : digitsToNat (natTo58Rev (bytesToNat bs)).reverse = bytesToNat bs := by
    unfold digitsToNat
    rw [valRevB_eq_foldl_reverse 58 (natTo58Rev (bytesToNat bs))]
    exact valRevB_natToDigitsRev 58 (by omega) (bytesToNat bs) (bytesToNat bs) le_rfl
  simp only [hdigval]
  have hrest256 : natTo256Rev (bytesToNat bs)
      = (bs.dropWhile (fun b => b == 0)).reverse := by
    rw [hn, hvalrest]
    unfold natTo256Rev
    refine natToDigitsRev_of_valRevB 256 (by omega) _ ?_ ?_
    · intro d hd
      exact hrestlt d (List.mem_reverse.mp hd)
    · intro x hx
      rw [List.getLast?_reverse] at hx
      exact hresthead x hx
  rw [hrest256, List.reverse_reverse]
  congr 1
  conv_rhs => rw [← hsplit]
  congr 1
  exact (List.eq_replicate.mpr ⟨rfl, hzero⟩).symm

theorem multibase_roundtrip (bs : List Nat) (h : ∀ x ∈ bs, x < 256) :
    multibaseDecode (multibaseB58btc bs) = some bs := by
  have h1 : multibaseDecode (multibaseB58btc bs)
      = if ('z' : Char) = 'z' then base58Decode (base58Encode bs) else none := rfl
  rw [h1, if_pos rfl]
  exact base58_decode_encode bs h

/-! ## Claim C5 -/

/-- C5: for every generated or derived key, the encoded public key is
exactly multibase(base58btc, curve prefix ++ compressed SEC1 point) with
prefix bytes 0x80 0x24 for P-256 and 0xe7 0x01 for secp256k1; decoding the
multibase string recovers precisely those bytes. -/
theorem C5_did_key_encoding :
    (∀ (ops : CurveOps) (secret : List Nat),
      (p256GenKey ops secret).2 = multibaseB58btc ([0x80, 0x24] ++ ops.pubOf secret)
        ∧ (k256GenKey ops secret).2 = multibaseB58btc ([0xe7, 0x01] ++ ops.pubOf secret))
    ∧ (∀ (prim : EcPrimitives) (jwk : JwkEcKey),
        (jwk.crv = "P-256" →
          jwk_to_did_key prim jwk = .ok (multibaseB58btc ([0x80, 0x24] ++ prim.p256.pubOf jwk.d)))
        ∧ (jwk.crv = "secp256k1" →
          jwk_to_did_key prim jwk = .ok (multibaseB58btc ([0xe7, 0x01] ++ prim.k256.pubOf jwk.d))))
    ∧ (∀ point : List Nat, (∀ x ∈ point, x < 256) →
        multibaseDecode (p256DidKeyFromPoint point) = some ([0x80, 0x24] ++ point)
        ∧ multibaseDecode (k256DidKeyFromPoint point) = some ([0xe7, 0x01] ++ point)) := by
  refine ⟨fun ops secret => ⟨rfl, rfl⟩, ?_, ?_⟩
  · intro prim jwk
    constructor
    · intro hc
      simp [jwk_to_did_key, hc, p256DidKeyFromPoint]
    · intro hc
      have : jwk.crv ≠ "P-256" := by rw [hc]; decide
      simp [jwk_to_did_key, hc, this, k256DidKeyFromPoint]
  · intro point hpt
    have hp : ∀ x ∈ [0x80, 0x24] ++ point, x < 256 := by
      intro x hx
      rcases List.mem_append.mp hx with h2 | h2
      · have : x = 0x80 ∨ x = 0x24 := by simpa using h2
        omega
      · exact hpt x h2
    have hk : ∀ x ∈ [0xe7, 0x01] ++ point, x < 256 := by
      intro x hx
      rcases List.mem_append.mp hx with h2 | h2
      · have : x = 0xe7 ∨ x = 0x01 := by simpa using h2
        omega
      · exact hpt x h2
    exact ⟨multibase_roundtrip _ hp, multibase_roundtrip _ hk⟩

/-- Witness for C5 at a concrete 3-byte point. -/
theorem C5_did_key_encoding_witness :
    multibaseDecode (p256DidKeyFromPoint [2, 17, 255]) = some [0x80, 0x24, 2, 17, 255]
    ∧ multibaseDecode (k256DidKeyFromPoint [2, 17, 255]) = some [0xe7, 0x01, 2, 17, 255] :=
  C5_did_key_encoding.2.2 [2, 17, 255] (by decide)


/-! ## Claim C6 -/

/-- C6: key round-trip.  Deriving the public key from the portable secret
returned at generation reproduces the encoded public key returned at
generation time; and for every payload `m`, `validate` accepts the raw
signature produced with that secret, assuming the external curve
primitives satisfy ECDSA correctness (verification accepts a signature
made with the matching secret) and emit byte-valued compressed points. -/
theorem C6_key_roundtrip :
    (∀ (prim : EcPrimitives) (secret : List Nat),
      jwk_to_did_key prim (p256GenKey prim.p256 secret).1 = .ok (p256GenKey prim.p256 secret).2
      ∧ jwk_to_did_key prim (k256GenKey prim.k256 secret).1 = .ok (k256GenKey prim.k256 secret).2)
    ∧ (∀ (prim : EcPrimitives) (secret m : List Nat),
        (∀ x ∈ prim.p256.pubOf secret, x < 256) →
        prim.p256.ecVerify (prim.p256.pubOf secret) m (prim.p256.ecSign secret m) = true →
        validate prim (p256GenKey prim.p256 secret).2 (prim.p256.ecSign secret m) m = .ok ())
    ∧ (∀ (prim : EcPrimitives) (secret m : List Nat),
        (∀ x ∈ prim.k256.pubOf secret, x < 256) →
        prim.k256.ecVerify (prim.k256.pubOf secret) m (prim.k256.ecSign secret m) = true →
        validate prim (k256GenKey prim.k256 secret).2 (prim.k256.ecSign secret m) m = .ok ()) := by
  refine ⟨?_, ?_, ?_⟩
  · intro prim secret
    constructor
    · simp [jwk_to_did_key, p256GenKey, p256DidKeyFromPoint]
    · have hne : ("secp256k1" : String) ≠ "P-256" := by decide
      simp [jwk_to_did_key, k256GenKey, k256DidKeyFromPoint, hne]
  · intro prim secret m hbytes hv
    have hall : ∀ x ∈ [0x80, 0x24] ++ prim.p256.pubOf secret, x < 256 := by
      intro x hx
      rcases List.mem_append.mp hx with h2 | h2
      · have : x = 0x80 ∨ x = 0x24 := by simpa using h2
        omega
      · exact hbytes x h2
    unfold validate
    rw [show (p256GenKey prim.p256 secret).2
        = multibaseB58btc ([0x80, 0x24] ++ prim.p256.pubOf secret) from rfl]
    rw [multibase_roundtrip _ hall]
    simp [hv]
  · intro prim secret m hbytes hv
    have hall : ∀ x ∈ [0xe7, 0x01] ++ prim.k256.pubOf secret, x < 256 := by
      intro x hx
      rcases List.mem_append.mp hx with h2 | h2
      · have : x = 0xe7 ∨ x = 0x01 := by simpa using h2
        omega
      · exact hbytes x h2
    unfold validate
    rw [show (k256GenKey prim.k256 secret).2
        = multibaseB58btc ([0xe7, 0x01] ++ prim.k256.pubOf secret) from rfl]
    rw [multibase_roundtrip _ hall]
    simp [hv]

/-- Witness for C6 with concrete (toy) curve primitives, secret `[1, 2]`
and payload `[7]`. -/
theorem C6_key_roundtrip_witness :
    jwk_to_did_key
        ⟨⟨fun s => s, fun s m => s ++ m, fun p m sg => sg == p ++ m⟩,
         ⟨fun s => s, fun s m => s ++ m, fun p m sg => sg == p ++ m⟩⟩
        (p256GenKey ⟨fun s => s, fun s m => s ++ m, fun p m sg => sg == p ++ m⟩ [1, 2]).1
      = .ok (p256GenKey ⟨fun s => s, fun s m => s ++ m, fun p m sg => sg == p ++ m⟩ [1, 2]).2
    ∧ validate
        ⟨⟨fun s => s, fun s m => s ++ m, fun p m sg => sg == p ++ m⟩,
         ⟨fun s => s, fun s m => s ++ m, fun p m sg => sg == p ++ m⟩⟩
        (p256GenKey ⟨fun s => s, fun s m => s ++ m, fun p m sg => sg == p ++ m⟩ [1, 2]).2
        ([1, 2] ++ [7]) [7]
      = .ok () :=
  ⟨(C6_key_roundtrip.1
      ⟨⟨fun s => s, fun s m => s ++ m, fun p m sg => sg == p ++ m⟩,
       ⟨fun s => s, fun s m => s ++ m, fun p m sg => sg == p ++ m⟩⟩ [1, 2]).1,
   C6_key_roundtrip.2.1
      ⟨⟨fun s => s, fun s m => s ++ m, fun p m sg => sg == p ++ m⟩,
       ⟨fun s => s, fun s m => s ++ m, fun p m sg => sg == p ++ m⟩⟩ [1, 2] [7]
      (by decide) (by decide)⟩


/-! ## Resolution loop lemmas -/

theorem resolveLoop_depth_iff (env : ResolveEnv) :
    ∀ (fuel : Nat) (s : RState),
      resolveLoop env fuel s = .error .depthExceeded
        ↔ ∀ k < fuel, frontierDone ((stepState env)^[k] s) = false := by
  intro fuel
  induction fuel with
  | zero =>
    intro s
    simp [resolveLoop]
  | succ f ih =>
    intro s
    by_cases hd : frontierDone s
    · constructor
      · intro h
        simp only [resolveLoop, if_pos hd] at h
        exact absurd h (by simp)
      · intro hall
        have h0 := hall 0 (Nat.succ_pos f)
        rw [Function.iterate_zero_apply] at h0
        rw [h0] at hd
        exact absurd hd (by simp)
    · constructor
      · intro h
        simp only [resolveLoop, if_neg hd] at h
        intro k hk
        cases k with
        | zero =>
          rw [Function.iterate_zero_apply]
          simpa using hd
        | succ k2 =>
          rw [Function.iterate_succ_apply]
          exact (ih (stepState env s)).mp h k2 (by omega)
      · intro hall
        simp only [resolveLoop, if_neg hd]
        apply (ih (stepState env s)).mpr
        intro k hk
        have hk1 := hall (k + 1) (by omega)
        rwa [Function.iterate_succ_apply] at hk1

/-! ## Claim C8 -/

/-- C8: the resolution loop is bounded: with the fuel of 10 iterations it
fails with `ResolutionDepthExceeded` exactly when no prefix of at most 10
steps settles both frontiers; loop errors propagate out of
`resolve_handle` unchanged; and for a subject whose handle and DID
mutually list each other with one PDS, resolution terminates within the
bound and returns that DID, PDS and handle set. -/
theorem C8_loop_termination :
    (∀ (env : ResolveEnv) (subject : String),
      resolveFacts env subject = .error .depthExceeded
        ↔ ∀ k < 10, frontierDone ((stepState env)^[k] (initState subject)) = false)
    ∧ (∀ (env : ResolveEnv) (subject : String) (e : ResolveErr),
        resolveFacts env subject = .error e → resolve_handle env subject = .error e)
    ∧ (∀ (env : ResolveEnv) (handle did pds : String),
        charsStartWith handle.data ("did:").data = false →
        charsStartWith did.data ("did:").data = true →
        env.httpBody handle = some did →
        env.dnsTxt handle = none →
        env.plcQuery did = some ([pds], [handle]) →
        resolve_handle env handle = .ok ⟨did, pds, [handle]⟩) := by
  refine ⟨fun env subject => resolveLoop_depth_iff env 10 (initState subject), ?_, ?_⟩
  · intro env subject e h
    simp [resolve_handle, h]
  · intro env handle did pds hsub hdid hhttp hdns hplc
    have hinit : initState handle = ⟨[], [], [], [handle], [], [], []⟩ := by
      simp [initState, hsub]
    have hstep0 : stepState env ⟨[], [], [], [handle], [], [], []⟩
        = ⟨[], [did], [handle], [handle], [], [], [did]⟩ := by
      simp [stepState, pickNext, processDid, processHandle, recordFoundDid,
        recordPlcResult, resolveHandleHttp, resolveHandleDns, slInsert, slExtend,
        hhttp, hdns, hdid, List.filter]
    have hstep1 : stepState env ⟨[], [did], [handle], [handle], [], [], [did]⟩
        = ⟨[did], [did], [handle], [handle], [pds], [handle], [did]⟩ := by
      simp [stepState, pickNext, processDid, processHandle, recordFoundDid,
        recordPlcResult, resolveHandleHttp, resolveHandleDns, slInsert, slExtend,
        hhttp, hdns, hdid, hplc, List.filter]
    have hdone0 : frontierDone ⟨[], [], [], [handle], [], [], []⟩ = false := by
      simp [frontierDone, pickNext, List.filter]
    have hdone1 : frontierDone ⟨[], [did], [handle], [handle], [], [], [did]⟩ = false := by
      simp [frontierDone, pickNext, List.filter]
    have hdone2 : frontierDone ⟨[did], [did], [handle], [handle], [pds], [handle], [did]⟩
        = true := by
      simp [frontierDone, pickNext, List.filter]
    have hloop : resolveFacts env handle
        = .ok ⟨[did], [did], [handle], [handle], [pds], [handle], [did]⟩ := by
      unfold resolveFacts
      rw [hinit]
      rw [show (10 : Nat) = 9 + 1 from rfl, resolveLoop, if_neg (by rw [hdone0]; simp), hstep0]
      rw [show (9 : Nat) = 8 + 1 from rfl, resolveLoop, if_neg (by rw [hdone1]; simp), hstep1]
      rw [show (8 : Nat) = 7 + 1 from rfl, resolveLoop, if_pos (by rw [hdone2])]
    unfold resolve_handle
    rw [hloop]
    simp

/-- Witness for C8: a ten-deep referral chain exhausts the bound and
surfaces `ResolutionDepthExceeded`; a concrete mutual handle/DID pair
resolves. -/
theorem C8_loop_termination_witness :
    resolve_handle
        { plcQuery := fun d =>
            if d = "did:plc:d0" then some ([], ["h1"])
            else if d = "did:plc:d1" then some ([], ["h2"])
            else if d = "did:plc:d2" then some ([], ["h3"])
            else if d = "did:plc:d3" then some ([], ["h4"])
            else if d = "did:plc:d4" then some ([], ["h5"])
            else none
          httpBody := fun h =>
            if h = "h0" then some "did:plc:d0"
            else if h = "h1" then some "did:plc:d1"
            else if h = "h2" then some "did:plc:d2"
            else if h = "h3" then some "did:plc:d3"
            else if h = "h4" then some "did:plc:d4"
            else none
          dnsTxt := fun _ => none }
        "h0" = .error .depthExceeded
    ∧ resolve_handle
        { plcQuery := fun d =>
            if d = "did:plc:xyz" then some (["https://pds2.example"], ["bob.example"]) else none
          httpBody := fun h => if h = "bob.example" then some "did:plc:xyz" else none
          dnsTxt := fun _ => none }
        "bob.example" = .ok ⟨"did:plc:xyz", "https://pds2.example", ["bob.example"]⟩ :=
  ⟨C8_loop_termination.2.1 _ "h0" .depthExceeded rfl,
   C8_loop_termination.2.2 _ "bob.example" "did:plc:xyz" "https://pds2.example"
      (by decide) (by decide) rfl rfl rfl⟩

/-! ## Claim C1 -/

/-- C1 (amended): at the post-condition stage with discovered fact set
`st`, `resolve_handle` fails with `MultipleDIDs` when more than one
distinct DID was discovered; with `NoHandles` when no handle was
discovered; with `MultiplePDS` when more than one distinct PDS endpoint
was discovered; returns the single DID, single PDS and full discovered
handle set when exactly one DID and exactly one PDS were discovered; and
when the DID set (resp. PDS set) is empty it fails with a
no-DIDs-found (resp. no-PDSs-found) error rather than returning. -/
theorem C1_postconditions (env : ResolveEnv) (subject : String) (st : RState)
    (hfacts : resolveFacts env subject = .ok st) :
    (st.foundDids.length > 1 → resolve_handle env subject = .error .multipleDids)
    ∧ (st.foundDids.length ≤ 1 → st.foundHandles = [] →
        resolve_handle env subject = .error .noHandles)
    ∧ (st.foundDids.length ≤ 1 → st.foundHandles ≠ [] → st.foundPds.length > 1 →
        resolve_handle env subject = .error .multiplePds)
    ∧ (∀ d p, st.foundDids = [d] → st.foundPds = [p] → st.foundHandles ≠ [] →
        resolve_handle env subject = .ok ⟨d, p, st.foundHandles⟩)
    ∧ (st.foundDids = [] → st.foundHandles ≠ [] → st.foundPds.length ≤ 1 →
        resolve_handle env subject = .error .noDids)
    ∧ (∀ d, st.foundDids = [d] → st.foundHandles ≠ [] → st.foundPds = [] →
        resolve_handle env subject = .error .noPds) := by
  refine ⟨?_, ?_, ?_, ?_, ?_, ?_⟩
  · intro h
    simp [resolve_handle, hfacts, h]
  · intro h1 h2
    have hx : ¬ st.foundDids.length > 1 := by omega
    simp [resolve_handle, hfacts, hx, h2]
  · intro h1 h2 h3
    have hx : ¬ st.foundDids.length > 1 := by omega
    have hy : st.foundHandles.isEmpty = false := by
      cases hfh : st.foundHandles with
      | nil => exact absurd hfh h2
      | cons a l => simp
    simp [resolve_handle, hfacts, hx, hy, h3]
  · intro d p hd hp h2
    have hy : st.foundHandles.isEmpty = false := by
      cases hfh : st.foundHandles with
      | nil => exact absurd hfh h2
      | cons a l => simp
    simp [resolve_handle, hfacts, hd, hp, hy]
  · intro hd h2 h3
    have hx : ¬ st.foundDids.length > 1 := by rw [hd]; simp
    have hy : st.foundHandles.isEmpty = false := by
      cases hfh : st.foundHandles with
      | nil => exact absurd hfh h2
      | cons a l => simp
    have hz : ¬ st.foundPds.length > 1 := by omega
    simp [resolve_handle, hfacts, hx, hy, hz, hd]
  · intro d hd h2 hp
    have hy : st.foundHandles.isEmpty = false := by
      cases hfh : st.foundHandles with
      | nil => exact absurd hfh h2
      | cons a l => simp
    simp [resolve_handle, hfacts, hd, hp, hy]

/-- Counterexample to C1 as stated: a DID-seeded subject whose own
document lists a handle with no published proof passes all three stated
failure checks (at most one DID, at least one handle, at most one PDS) and
still does not return — the empty found-DID set is a fourth, unstated
failure case. -/
theorem C1_postconditions_counterexample :
    resolveFacts
        { plcQuery := fun d =>
            if d = "did:plc:seed" then some (["https://pds.example"], ["alice.example"])
            else none
          httpBody := fun _ => none
          dnsTxt := fun _ => none }
        "did:plc:seed"
      = .ok ⟨["did:plc:seed"], ["did:plc:seed"], ["alice.example"], ["alice.example"],
          ["https://pds.example"], ["alice.example"], []⟩
    ∧ ([] : List String).length ≤ 1
    ∧ (["alice.example"] : List String) ≠ []
    ∧ (["https://pds.example"] : List String).length ≤ 1
    ∧ resolve_handle
        { plcQuery := fun d =>
            if d = "did:plc:seed" then some (["https://pds.example"], ["alice.example"])
            else none
          httpBody := fun _ => none
          dnsTxt := fun _ => none }
        "did:plc:seed" = .error .noDids :=
  ⟨rfl, by decide, by decide, by decide, rfl⟩

/-- Witness for C1: the amended return case at a concrete mutual pair. -/
theorem C1_postconditions_witness :
    resolve_handle
        { plcQuery := fun d =>
            if d = "did:plc:abc123" then some (["https://pds.example"], ["alice.example"])
            else none
          httpBody := fun h => if h = "alice.example" then some "did:plc:abc123" else none
          dnsTxt := fun _ => none }
        "alice.example"
      = .ok ⟨"did:plc:abc123", "https://pds.example", ["alice.example"]⟩ :=
  (C1_postconditions
      { plcQuery := fun d =>
          if d = "did:plc:abc123" then some (["https://pds.example"], ["alice.example"])
          else none
        httpBody := fun h => if h = "alice.example" then some "did:plc:abc123" else none
        dnsTxt := fun _ => none }
      "alice.example"
      ⟨["did:plc:abc123"], ["did:plc:abc123"], ["alice.example"], ["alice.example"],
        ["https://pds.example"], ["alice.example"], ["did:plc:abc123"]⟩
      rfl).2.2.2.1 "did:plc:abc123" "https://pds.example" rfl rfl (by decide)


/-! ## Resolution environment congruence (for C2) -/

theorem processDid_congr (env env2 : ResolveEnv) (hplc : env.plcQuery = env2.plcQuery)
    (s : RState) (o : Option String) : processDid env s o = processDid env2 s o := by
  cases o with
  | none => rfl
  | some d =>
    unfold processDid
    rw [hplc]

theorem recordFoundDid_congr (s : RState) (r r2 : Except ResolveErr String)
    (h : exceptOk r = exceptOk r2) : recordFoundDid s r = recordFoundDid s r2 := by
  cases r with
  | ok d =>
    cases r2 with
    | ok d2 =>
      simp only [exceptOk, Option.some.injEq] at h
      rw [h]
    | error e2 => simp [exceptOk] at h
  | error e =>
    cases r2 with
    | ok d2 => simp [exceptOk] at h
    | error e2 => rfl

theorem processHandle_congr (env env2 : ResolveEnv)
    (hhttp : env.httpBody = env2.httpBody)
    (hdns : ∀ x, exceptOk (resolveHandleDns env x) = exceptOk (resolveHandleDns env2 x))
    (s : RState) (o : Option String) : processHandle env s o = processHandle env2 s o := by
  cases o with
  | none => rfl
  | some hdl =>
    simp only [processHandle]
    have hh : resolveHandleHttp env hdl = resolveHandleHttp env2 hdl := by
      unfold resolveHandleHttp
      rw [hhttp]
    rw [hh]
    exact recordFoundDid_congr _ _ _ (hdns hdl)

theorem stepState_congr (env env2 : ResolveEnv)
    (hplc : env.plcQuery = env2.plcQuery)
    (hhttp : env.httpBody = env2.httpBody)
    (hdns : ∀ x, exceptOk (resolveHandleDns env x) = exceptOk (resolveHandleDns env2 x))
    (s : RState) : stepState env s = stepState env2 s := by
  unfold stepState
  rw [processDid_congr env env2 hplc, processHandle_congr env env2 hhttp hdns]

theorem resolveLoop_congr (env env2 : ResolveEnv)
    (hplc : env.plcQuery = env2.plcQuery)
    (hhttp : env.httpBody = env2.httpBody)
    (hdns : ∀ x, exceptOk (resolveHandleDns env x) = exceptOk (resolveHandleDns env2 x)) :
    ∀ (fuel : Nat) (s : RState), resolveLoop env fuel s = resolveLoop env2 fuel s := by
  intro fuel
  induction fuel with
  | zero => intro s; rfl
  | succ f ih =>
    intro s
    by_cases hd : frontierDone s
    · simp only [resolveLoop, if_pos hd]
    · simp only [resolveLoop, if_neg hd]
      rw [stepState_congr env env2 hplc hhttp hdns]
      exact ih (stepState env2 s)

theorem resolve_handle_congr (env env2 : ResolveEnv)
    (hplc : env.plcQuery = env2.plcQuery)
    (hhttp : env.httpBody = env2.httpBody)
    (hdns : ∀ x, exceptOk (resolveHandleDns env x) = exceptOk (resolveHandleDns env2 x))
    (subject : String) : resolve_handle env subject = resolve_handle env2 subject := by
  unfold resolve_handle resolveFacts
  rw [resolveLoop_congr env env2 hplc hhttp hdns]

/-! ## Claim C2 -/

/-- C2 (amended): `resolve_handle_dns` itself fails (the ambiguity error)
exactly when the TXT records carry more than one distinct `did=` value;
but inside `resolve_handle` this is a recovered soft per-source failure,
not a fatal one: a handle with ambiguous DNS behaves exactly like a handle
publishing no DNS records at all, for every subject. -/
theorem C2_dns_ambiguity_soft :
    (∀ records : List String, (dnsDids records).length > 1 →
        resolve_handle_dns records = .error .ambiguousHandle)
    ∧ (∀ records : List String, resolve_handle_dns records = .error .ambiguousHandle →
        (dnsDids records).length > 1)
    ∧ (∀ (env : ResolveEnv) (hdl : String) (records : List String),
        env.dnsTxt hdl = some records → (dnsDids records).length > 1 →
        ∀ subject, resolve_handle env subject
          = resolve_handle (envWithNoDnsFor env hdl) subject) := by
  refine ⟨?_, ?_, ?_⟩
  · intro records h
    simp [resolve_handle_dns, h]
  · intro records h
    by_cases h1 : (dnsDids records).length > 1
    · exact h1
    · exfalso
      unfold resolve_handle_dns at h
      rw [if_neg h1] at h
      cases h2 : (dnsDids records).head? with
      | none => rw [h2] at h; simp at h
      | some d => rw [h2] at h; simp at h
  · intro env hdl records hrec hamb subject
    apply resolve_handle_congr
    · rfl
    · rfl
    · intro x
      by_cases hx : x = hdl
      · subst hx
        have h1 : resolveHandleDns env x = .error .ambiguousHandle := by
          unfold resolveHandleDns
          rw [hrec]
          simp [resolve_handle_dns, hamb]
        have h2 : resolveHandleDns (envWithNoDnsFor env x) x = .error .noRecords := by
          unfold resolveHandleDns envWithNoDnsFor
          simp [resolve_handle_dns, dnsDids]
        rw [h1, h2]
        rfl
      · have h2 : resolveHandleDns (envWithNoDnsFor env hdl) x = resolveHandleDns env x := by
          unfold resolveHandleDns envWithNoDnsFor
          simp [hx]
        rw [h2]

/-- Counterexample to C2 as stated: a handle whose DNS TXT records carry
two distinct DIDs (an `AmbiguousHandle` failure of the DNS source) does
not make the whole resolution fail — the HTTPS proof alone still resolves
it successfully. -/
theorem C2_dns_ambiguity_counterexample :
    (dnsDids ["did=did:plc:x", "did=did:plc:y"]).length = 2
    ∧ resolve_handle_dns ["did=did:plc:x", "did=did:plc:y"] = .error .ambiguousHandle
    ∧ resolve_handle
        { plcQuery := fun d =>
            if d = "did:plc:abc123" then some (["https://pds.example"], ["alice.example"])
            else none
          httpBody := fun h => if h = "alice.example" then some "did:plc:abc123" else none
          dnsTxt := fun h =>
            if h = "alice.example" then some ["did=did:plc:x", "did=did:plc:y"] else none }
        "alice.example"
      = .ok ⟨"did:plc:abc123", "https://pds.example", ["alice.example"]⟩ :=
  ⟨rfl, rfl, rfl⟩

/-- Witness for C2 at a concrete ambiguous record set and environment. -/
theorem C2_dns_ambiguity_soft_witness :
    resolve_handle_dns ["did=did:plc:a", "did=did:plc:b"] = .error .ambiguousHandle
    ∧ (∀ subject, resolve_handle
        { plcQuery := fun _ => none
          httpBody := fun _ => none
          dnsTxt := fun h =>
            if h = "amb.example" then some ["did=did:plc:a", "did=did:plc:b"] else none }
        subject
      = resolve_handle
        (envWithNoDnsFor
          { plcQuery := fun _ => none
            httpBody := fun _ => none
            dnsTxt := fun h =>
              if h = "amb.example" then some ["did=did:plc:a", "did=did:plc:b"] else none }
          "amb.example")
        subject) :=
  ⟨C2_dns_ambiguity_soft.1 ["did=did:plc:a", "did=did:plc:b"] (by decide),
   fun subject => C2_dns_ambiguity_soft.2.2 _ "amb.example" ["did=did:plc:a", "did=did:plc:b"]
      rfl (by decide) subject⟩

/-! ## Found-DID provenance (for C10) -/

theorem slInsert_mem (l : List String) (y x : String) (h : x ∈ slInsert l y) :
    x ∈ l ∨ x = y := by
  unfold slInsert at h
  by_cases hy : y ∈ l
  · rw [if_pos hy] at h
    exact Or.inl h
  · rw [if_neg hy] at h
    rcases List.mem_append.mp h with h2 | h2
    · exact Or.inl h2
    · simp at h2
      exact Or.inr h2

theorem processDid_foundDids (env : ResolveEnv) (s : RState) (o : Option String) :
    (processDid env s o).foundDids = s.foundDids := by
  cases o with
  | none => rfl
  | some d =>
    simp only [processDid]
    cases h : env.plcQuery d with
    | none => rfl
    | some pr =>
      obtain ⟨pds, handles⟩ := pr
      rfl

theorem recordFoundDid_mem (s : RState) (r : Except ResolveErr String) (x : String)
    (h : x ∈ (recordFoundDid s r).foundDids) :
    x ∈ s.foundDids ∨ (r = .ok x) := by
  cases r with
  | ok d =>
    rcases slInsert_mem _ _ _ h with h2 | rfl
    · exact Or.inl h2
    · exact Or.inr rfl
  | error e => exact Or.inl h

theorem processHandle_foundDids (env : ResolveEnv) (s : RState) (o : Option String)
    (x : String) (h : x ∈ (processHandle env s o).foundDids) :
    x ∈ s.foundDids ∨ proofDiscovered env x := by
  cases o with
  | none => exact Or.inl h
  | some hdl =>
    simp only [processHandle] at h
    rcases recordFoundDid_mem _ _ _ h with h2 | hd
    · rcases recordFoundDid_mem _ _ _ h2 with h3 | hh
      · exact Or.inl h3
      · exact Or.inr ⟨hdl, Or.inl hh⟩
    · exact Or.inr ⟨hdl, Or.inr hd⟩

theorem resolveLoop_foundDids_inv (env : ResolveEnv) :
    ∀ (fuel : Nat) (s st : RState),
      resolveLoop env fuel s = .ok st →
      (∀ x ∈ s.foundDids, proofDiscovered env x) →
      ∀ x ∈ st.foundDids, proofDiscovered env x := by
  intro fuel
  induction fuel with
  | zero =>
    intro s st h
    simp [resolveLoop] at h
  | succ f ih =>
    intro s st h hinv
    by_cases hd : frontierDone s
    · simp only [resolveLoop, if_pos hd, Except.ok.injEq] at h
      subst h
      exact hinv
    · simp only [resolveLoop, if_neg hd] at h
      refine ih (stepState env s) st h ?_
      intro x hx
      unfold stepState at hx
      rcases processHandle_foundDids env _ _ x hx with h2 | h2
      · rw [processDid_foundDids] at h2
        exact hinv x h2
      · exact h2

theorem resolve_handle_did_proof (env : ResolveEnv) (subject : String) (r : ResolvedHandle)
    (h : resolve_handle env subject = .ok r) : proofDiscovered env r.did := by
  unfold resolve_handle at h
  cases hf : resolveFacts env subject with
  | error e =>
    rw [hf] at h
    simp at h
  | ok st =>
    rw [hf] at h
    dsimp only at h
    have hinv : ∀ x ∈ st.foundDids, proofDiscovered env x := by
      apply resolveLoop_foundDids_inv env 10 (initState subject) st hf
      intro x hx
      unfold initState at hx
      by_cases hs : charsStartWith subject.data ("did:").data
      · rw [if_pos hs] at hx
        exact absurd hx (List.not_mem_nil x)
      · rw [if_neg hs] at hx
        exact absurd hx (List.not_mem_nil x)
    split_ifs at h with h1 h2 h3
    cases hdid : st.foundDids.head? with
    | none =>
      cases hpds : st.foundPds.head? with
      | none => rw [hdid, hpds] at h; simp at h
      | some p => rw [hdid, hpds] at h; simp at h
    | some d =>
      cases hpds : st.foundPds.head? with
      | none => rw [hdid, hpds] at h; simp at h
      | some p =>
        rw [hdid, hpds] at h
        simp only [Except.ok.injEq] at h
        have hdd : r.did = d := by rw [← h]
        rw [hdd]
        exact hinv d (List.mem_of_mem_head? hdid)

/-! ## Claim C10 -/

/-- C10: every successfully returned DID was discovered through a handle
proof (HTTPS well-known or DNS TXT); a DID supplied as the subject is only
seeded into the unresolved frontier, so when no handle publishes any
proof, resolution of a DID subject fails instead of returning the seed
unverified. -/
theorem C10_no_unverified_seed :
    (∀ (env : ResolveEnv) (subject : String) (r : ResolvedHandle),
        resolve_handle env subject = .ok r → proofDiscovered env r.did)
    ∧ (∀ (env : ResolveEnv) (subject : String),
        charsStartWith subject.data ("did:").data = true →
        (∀ hdl, env.httpBody hdl = none) →
        (∀ hdl, env.dnsTxt hdl = none) →
        ∃ e, resolve_handle env subject = .error e) := by
  refine ⟨fun env subject r h => resolve_handle_did_proof env subject r h, ?_⟩
  intro env subject hs hhttp hdns
  cases hr : resolve_handle env subject with
  | error e => exact ⟨e, rfl⟩
  | ok r =>
    exfalso
    obtain ⟨hdl, hcase⟩ := resolve_handle_did_proof env subject r hr
    rcases hcase with hc | hc
    · unfold resolveHandleHttp at hc
      rw [hhttp hdl] at hc
      simp at hc
    · unfold resolveHandleDns at hc
      rw [hdns hdl] at hc
      simp at hc

/-- Witness for C10: a proof-discovered DID in a resolving environment,
and failure for a proof-less DID subject. -/
theorem C10_no_unverified_seed_witness :
    proofDiscovered
      { plcQuery := fun d =>
          if d = "did:plc:c1" then some (["https://pds3.example"], ["carol.example"]) else none
        httpBody := fun h => if h = "carol.example" then some "did:plc:c1" else none
        dnsTxt := fun _ => none }
      (ResolvedHandle.mk "did:plc:c1" "https://pds3.example" ["carol.example"]).did
    ∧ ∃ e, resolve_handle
        { plcQuery := fun _ => none, httpBody := fun _ => none, dnsTxt := fun _ => none }
        "did:plc:x" = .error e :=
  ⟨C10_no_unverified_seed.1
      { plcQuery := fun d =>
          if d = "did:plc:c1" then some (["https://pds3.example"], ["carol.example"]) else none
        httpBody := fun h => if h = "carol.example" then some "did:plc:c1" else none
        dnsTxt := fun _ => none }
      "carol.example" ⟨"did:plc:c1", "https://pds3.example", ["carol.example"]⟩ rfl,
   C10_no_unverified_seed.2
      { plcQuery := fun _ => none, httpBody := fun _ => none, dnsTxt := fun _ => none }
      "did:plc:x" (by decide) (fun _ => rfl) (fun _ => rfl)⟩

end Tandem
